import Mathlib

/-!
Verification of the python-to-LaTeX translator `py2tex.py`.

The translator walks a Python `ast` expression tree (produced by the external
`asttokens` source-aware parser) and produces a LaTeX fragment.  Two external
collaborators appear only through a narrow interface:

  - `asttokens` supplies, for every node, the exact original source substring
    it was parsed from (`Asttokens.get_text`);
  - `sympy` supplies `sympify` together with the observations the translator
    makes of the result: `is_Add` on the sympified text of a summation body,
    the `isinstance(..., sympy.Expr)` test on a sympified argument text, the
    `str(...)` form of a non-Expr sympified argument, and `sympy.latex` of the
    sympified reassembled call text.

Both collaborators are modelled as function records; the translator itself is
embedded faithfully, case by case, from `LatexVisitor` in `py2tex.py`.
Strings are Lean `String`s; Python `str.replace` is embedded explicitly with
its leftmost, non-overlapping semantics.  A Python method lookup miss
(`ast.NodeVisitor.generic_visit`) returns Python `None`; this is modelled by
`Option String` with `none`, and Python `"%s" % None` formatting by `pystr`.
-/

/-- The binary operator classes of Python `ast` that can appear in a `BinOp`
node (`ast.Add`, `ast.Sub`, ...).  `matMult` (the `@` operator) has neither a
`visit_` nor a `prec_` handler in the source and exercises the
`generic_visit` / `generic_prec` fallbacks. -/
inductive BinOp where
  | add
  | sub
  | mult
  | div
  | floorDiv
  | mod
  | pow
  | bitAnd
  | bitOr
  | bitXor
  | lshift
  | rshift
  | matMult
deriving DecidableEq

/-- The unary operator classes of Python `ast` (`ast.UAdd`, `ast.USub`,
`ast.Not`, `ast.Invert`). -/
inductive UnOp where
  | uadd
  | usub
  | not
  | invert
deriving DecidableEq

/-- The expression-tree node variants the translator dispatches on: `ast.Call`,
`ast.Name`, `ast.Num`, `ast.UnaryOp`, `ast.BinOp` and `ast.Tuple` (a tuple
node carries the `elts` list used by the `Sum`/`Product` special case; it has
no `visit_Tuple` handler of its own). -/
inductive Node where
  | call (func : Node) (args : List Node)
  | name (id : String)
  | num (value : Int)
  | unaryOp (op : UnOp) (operand : Node)
  | binOp (op : BinOp) (left : Node) (right : Node)
  | tuple (elts : List Node)

/-- `LatexVisitor.prec` on an operator object: dispatches to `prec_Add`,
`prec_Sub`, ... and falls back to `generic_prec` (which returns 0) for the
operator classes without a `prec_` method (the bitwise, shift and `@`
operators). -/
def precBinOp : BinOp → Nat
  | .add => 300
  | .sub => 300
  | .mult => 400
  | .div => 400
  | .floorDiv => 400
  | .mod => 500
  | .pow => 700
  | _ => 0

/-- `prec_UAdd`, `prec_USub`, `prec_Not`, `prec_Invert` all return 800. -/
def precUnOp : UnOp → Nat
  | _ => 800

/-- `LatexVisitor.prec` on a tree node: `prec_Call`, `prec_Name`, `prec_Num`
return 1000, `prec_BinOp` and `prec_UnaryOp` delegate to the operator, and a
node class without a `prec_` method (such as a tuple) falls back to
`generic_prec`, which returns 0. -/
def prec : Node → Nat
  | .call _ _ => 1000
  | .name _ => 1000
  | .num _ => 1000
  | .unaryOp op _ => precUnOp op
  | .binOp op _ _ => precBinOp op
  | .tuple _ => 0

/-- Python `"%s" % x` formatting of a value that is either a string or the
`None` returned by `ast.NodeVisitor.generic_visit`: `None` prints as the four
characters `None`. -/
def pystr : Option String → String
  | some s => s
  | none => "None"

/-- The digit characters used by decimal printing of numbers (Python
`str(int)`). -/
def digitCh : Nat → Char
  | 0 => '0'
  | 1 => '1'
  | 2 => '2'
  | 3 => '3'
  | 4 => '4'
  | 5 => '5'
  | 6 => '6'
  | 7 => '7'
  | 8 => '8'
  | 9 => '9'
  | _ => '*'

/-- Numeric value of a digit character (left inverse of `digitCh`). -/
def chVal (c : Char) : Nat :=
  if c = '0' then 0 else if c = '1' then 1 else if c = '2' then 2
  else if c = '3' then 3 else if c = '4' then 4 else if c = '5' then 5
  else if c = '6' then 6 else if c = '7' then 7 else if c = '8' then 8
  else if c = '9' then 9 else 10

/-- Fuel-indexed decimal printing: digits of `n`, most significant first.
Any fuel above `n` is sufficient. -/
def toDecAux : Nat → Nat → List Char
  | 0, _ => []
  | f+1, n =>
    if n < 10 then [digitCh n]
    else toDecAux f (n / 10) ++ [digitCh (n % 10)]

/-- Python `str` of a natural number: its usual decimal representation. -/
def natStr (n : Nat) : String :=
  (toDecAux (n + 1) n).asString

/-- Python `str` of an integer (the translator applies it in `visit_Num` as
`str(n.n)`). -/
def intStr : Int → String
  | .ofNat n => natStr n
  | .negSucc n => "-" ++ natStr (n + 1)

/-- One scan of Python `str.replace` semantics over a character list:
leftmost-first, non-overlapping occurrences of `pat` are replaced by `repl`,
resuming after the replaced occurrence.  The fuel argument is structural
bookkeeping only; any fuel at least the length of the text gives the real
result (each step consumes at least one character). -/
def replaceAux (pat repl : List Char) : Nat → List Char → List Char
  | _, [] => []
  | 0, s => s
  | f+1, c :: cs =>
    if pat ≠ [] ∧ List.isPrefixOf pat (c :: cs) then
      repl ++ replaceAux pat repl f (List.drop (pat.length - 1) cs)
    else
      c :: replaceAux pat repl f cs

/-- Python `s.replace(pat, repl)` on strings. -/
def replaceStr (s pat repl : String) : String :=
  (replaceAux pat.toList repl.toList s.toList.length s.toList).asString

/-- Whether `pat` occurs as a contiguous substring of `s`. -/
def hasSubstr (pat : List Char) : List Char → Bool
  | [] => List.isPrefixOf pat []
  | c :: cs => List.isPrefixOf pat (c :: cs) || hasSubstr pat cs

/-- Whether the string `p` occurs as a contiguous substring of the string
`s`. -/
def occursIn (p s : String) : Bool :=
  hasSubstr p.toList s.toList

/-- The post-processing pass at the end of `py2tex`: the two unconditional
literal substitutions
`s.replace("(\left(", "\left(")` and `s.replace("\right))", "\right)")`. -/
def cleanup (s : String) : String :=
  replaceStr (replaceStr s "(\\left(" "\\left(") "\\right))" "\\right)"

/-- The source-aware parser collaborator (`asttokens.ASTTokens`): for every
node, the exact original substring of the input text it was parsed from. -/
structure Asttokens where
  get_text : Node → String

/-- The symbolic evaluator collaborator (`sympy`), observed by the translator
only through these four functions of a subexpression text: `is_Add` is
`sympify(text).is_Add`, `is_Expr` is `isinstance(sympify(text), sympy.Expr)`,
`str_of` is `str(sympify(text))`, and `latex_of` is
`sympy.latex(sympify(text))`. -/
structure SympyOracle where
  is_Add : String → Bool
  is_Expr : String → Bool
  str_of : String → String
  latex_of : String → String

/-- Explicit grouping of a child rendering: `r"\left(%s\right)"`. -/
def wrap (s : String) : String :=
  "\\left(" ++ s ++ "\\right)"

/-- The grouping test applied to the left child of a `BinOp` node
(line 102 of the source): `self.prec(n.op) > self.prec(n.left)`. -/
def groupLeftB (op : BinOp) (l : Node) : Bool :=
  precBinOp op > prec l

/-- The grouping test applied to the right child of a `BinOp` node
(lines 106-107 of the source): `self.prec(n.op) > self.prec(n.right)`, or the
operator is `ast.Sub` and `self.prec(n.op) == self.prec(n.right)`. -/
def groupRightB (op : BinOp) (r : Node) : Bool :=
  precBinOp op > prec r || (op == BinOp.sub && precBinOp op == prec r)

/-- `self.visit(n.op)` on a binary operator object: `visit_Add`, `visit_Sub`,
`visit_Mult`, `visit_Mod`, `visit_LShift`, `visit_RShift`, `visit_BitOr`,
`visit_BitXor`, `visit_BitAnd` return the operator symbol; an operator class
with no handler (`ast.Div`, `ast.FloorDiv`, `ast.Pow`, `ast.MatMult`) hits
`generic_visit`, which returns Python `None`. -/
def visitBinOpKind : BinOp → Option String
  | .add => some "+"
  | .sub => some "-"
  | .mult => some " "
  | .mod => some "\\bmod"
  | .lshift => some "\\operatorname\x7bshiftLeft\x7d"
  | .rshift => some "\\operatorname\x7bshiftRight\x7d"
  | .bitOr => some "\\operatorname\x7bor\x7d"
  | .bitXor => some "\\operatorname\x7bxor\x7d"
  | .bitAnd => some "\\operatorname\x7band\x7d"
  | .div => none
  | .floorDiv => none
  | .pow => none
  | .matMult => none

/-- `self.visit(n.op)` on a unary operator object: `visit_UAdd`,
`visit_USub`, `visit_Not`, `visit_Invert`. -/
def visitUnOpKind : UnOp → String
  | .uadd => "+"
  | .usub => "-"
  | .not => "\\neg"
  | .invert => "\\operatorname\x7binvert\x7d"

/-- The dummy placeholder name `"py2texdummyvar{}".format(k)` allocated in the
generic call case, where `k` is `len(dummified_args)` at allocation time. -/
def dummyName (k : Nat) : String :=
  "py2texdummyvar" ++ natStr k

mutual

/-- `LatexVisitor.visit`, case by case from the source.  `none` models a
translation that produces no string: either the visitor returned Python
`None` (a node class with no `visit_` handler, such as a tuple), or the
translation raised (malformed `Sum`/`Product` argument shape; joining or
substituting a `None` child rendering). -/
def visit (atok : Asttokens) (sym : SympyOracle) : Node → Option String
  | .name id => some id
  | .num v => some (intStr v)
  | .tuple _ => none
  | .unaryOp op x =>
    if precUnOp op > prec x then
      some (visitUnOpKind op ++ " \\left(" ++ pystr (visit atok sym x) ++ "\\right)")
    else
      some (visitUnOpKind op ++ " " ++ pystr (visit atok sym x))
  | .binOp op l r =>
    let lv := pystr (visit atok sym l)
    let rv := pystr (visit atok sym r)
    let left := if groupLeftB op l then wrap lv else lv
    let right := if groupRightB op r then wrap rv else rv
    match op with
    | .div => some ("\\frac\x7b" ++ lv ++ "\x7d\x7b" ++ rv ++ "\x7d")
    | .floorDiv =>
      some ("\\left\\lfloor\\frac\x7b" ++ lv ++ "\x7d\x7b" ++ rv ++ "\x7d\\right\\rfloor")
    | .pow => some ("(" ++ left ++ ")^\x7b" ++ rv ++ "\x7d")
    | _ => some (left ++ pystr (visitBinOpKind op) ++ right)
  | .call f args =>
    let funcv := visit atok sym f
    if funcv = some "Sum" ∨ funcv = some "Product" then
      match args with
      | body :: .tuple [idx, lo, hi] :: _ =>
        let bodyv := pystr (visit atok sym body)
        let body2 :=
          if sym.is_Add (atok.get_text body) then "\\left(" ++ bodyv ++ "\\right)" else bodyv
        let sp := if funcv = some "Sum" then "sum_" else "prod_"
        some ("\\" ++ sp ++ " \x7b" ++ pystr (visit atok sym idx) ++ "=" ++
          pystr (visit atok sym lo) ++ "\x7d^\x7b" ++ pystr (visit atok sym hi) ++
          "\x7d " ++ body2)
      | _ => none
    else if funcv = some "fibonacci" ∨ funcv = some "lucas" then
      match visitList atok sym args with
      | none => none
      | some ss =>
        let a := String.intercalate ", " ss
        if funcv = some "fibonacci" then some ("F_\x7b" ++ a ++ "\x7d")
        else some ("L_\x7b" ++ a ++ "\x7d")
    else
      match visitDummify atok sym args 0 with
      | none => none
      | some (ds, rs) =>
        let s := atok.get_text f ++ "(" ++ String.intercalate "," ds ++ ")"
        some (rs.foldl (fun acc dr => replaceStr acc dr.1 dr.2) (sym.latex_of s))

/-- `map(self.visit, n.args)` followed by joining: `none` when some argument
visits to Python `None` (the join would raise `TypeError`). -/
def visitList (atok : Asttokens) (sym : SympyOracle) : List Node → Option (List String)
  | [] => some []
  | a :: rest =>
    match visit atok sym a, visitList atok sym rest with
    | some s, some ss => some (s :: ss)
    | _, _ => none

/-- The argument loop of the generic call case.  `k` is `len(dummified_args)`
on entry (each iteration appends exactly one element to `dummified_args`, in
both branches).  Returns the final `dummified_args` and the insertion-ordered
`replacements` mapping; `none` when an expression-typed argument visits to
Python `None` (the final `str.replace` of that recorded `None` would raise
`TypeError`). -/
def visitDummify (atok : Asttokens) (sym : SympyOracle) :
    List Node → Nat → Option (List String × List (String × String))
  | [], _ => some ([], [])
  | a :: rest, k =>
    let t := atok.get_text a
    if sym.is_Expr t then
      match visit atok sym a, visitDummify atok sym rest (k + 1) with
      | some la, some (ds, rs) => some (dummyName k :: ds, (dummyName k, la) :: rs)
      | _, _ => none
    else
      match visitDummify atok sym rest (k + 1) with
      | some (ds, rs) => some (sym.str_of t :: ds, rs)
      | none => none

end

/-- The entry point `py2tex` past the external parse: the input text is parsed
by the external `asttokens` collaborator into a tree (the `tree` argument
here), the root expression node is visited, and the post-processor `cleanup`
is applied to the resulting string. -/
def py2tex (atok : Asttokens) (sym : SympyOracle) (tree : Node) : Option String :=
  (visit atok sym tree).map cleanup

/-- Decimal value of a digit string, used to invert `toDecAux`. -/
def decVal (l : List Char) : Nat :=
  l.foldl (fun a c => 10 * a + chVal c) 0

mutual

/-- The identifiers (names of `ast.Name` nodes) appearing in a tree, i.e. in
the input text the tree was parsed from. -/
def namesIn : Node → List String
  | .call f args => namesIn f ++ namesInList args
  | .name id => [id]
  | .num _ => []
  | .unaryOp _ x => namesIn x
  | .binOp _ l r => namesIn l ++ namesIn r
  | .tuple es => namesInList es

/-- The identifiers appearing in any node of a list of nodes. -/
def namesInList : List Node → List String
  | [] => []
  | a :: rest => namesIn a ++ namesInList rest

end

/-- The placeholder names recorded by the generic-call argument loop (the keys
of `replacements`, in insertion order). -/
def placeholderNames (atok : Asttokens) (sym : SympyOracle) (args : List Node) (k : Nat) :
    List String :=
  match visitDummify atok sym args k with
  | some (_, rs) => rs.map Prod.fst
  | none => []

/-- The number of expression-typed arguments of a call: those whose sympified
source text satisfies `isinstance(..., sympy.Expr)`. -/
def countExprArgs (atok : Asttokens) (sym : SympyOracle) (args : List Node) : Nat :=
  List.countP (fun a => sym.is_Expr (atok.get_text a)) args

/-- A trivial parser collaborator for inputs whose translation never consults
the source text (no call nodes). -/
def defaultAtok : Asttokens :=
  ⟨fun _ => ""⟩

/-- A trivial evaluator collaborator for inputs whose translation never
consults it (no call nodes). -/
def defaultSympy : SympyOracle :=
  ⟨fun _ => false, fun _ => true, fun s => s, fun s => s⟩

/-- The tree the external parser produces for the input `3-(1+2)/5`:
subtraction of the fraction `(1+2)/5` from `3`. -/
def tree351 : Node :=
  .binOp .sub (.num 3) (.binOp .div (.binOp .add (.num 1) (.num 2)) (.num 5))

/-- The tree the external parser produces for `(3-1+2)/5`: the rendering the
subtraction must NOT collapse into. -/
def tree351flat : Node :=
  .binOp .div (.binOp .add (.binOp .sub (.num 3) (.num 1)) (.num 2)) (.num 5)

/-- The body tree of `Sum(i+k, (i, 1, k))`. -/
def sumBodyAdd : Node :=
  .binOp .add (.name "i") (.name "k")

/-- The body tree of `Sum(i*k, (i, 1, k))`. -/
def sumBodyMul : Node :=
  .binOp .mult (.name "i") (.name "k")

/-- The argument list of `Sum(body, (i, 1, k))`. -/
def sumArgs (body : Node) : List Node :=
  [body, .tuple [.name "i", .num 1, .name "k"]]

/-- The tree of `Sum(i+k, (i, 1, k))`. -/
def sumCallAdd : Node :=
  .call (.name "Sum") (sumArgs sumBodyAdd)

/-- The tree of `Sum(i*k, (i, 1, k))`. -/
def sumCallMul : Node :=
  .call (.name "Sum") (sumArgs sumBodyMul)

/-- Modelled from the spec: the external source-aware parser on the inputs
`Sum(i+k, (i, 1, k))` and `Sum(i*k, (i, 1, k))` — the body nodes were parsed
from the substrings `i+k` and `i*k`. -/
def exampleAtok : Asttokens :=
  ⟨fun n =>
    match n with
    | .binOp .add (.name "i") (.name "k") => "i+k"
    | .binOp .mult (.name "i") (.name "k") => "i*k"
    | .name id => id
    | _ => ""⟩

/-- Modelled from the spec: the external symbolic evaluator's classification
of the two summation bodies — `sympify("i+k")` is top-level additive,
`sympify("i*k")` is not. -/
def exampleSympy : SympyOracle :=
  ⟨fun s => s = "i+k", fun _ => true, fun s => s, fun s => s⟩

/-- The single argument `x+y` of the placeholder-collision input. -/
def collisionArg : Node :=
  .binOp .add (.name "x") (.name "y")

/-- The tree of the input `py2texdummyvar0(x+y)`: a call whose callee is the
ordinary (valid) identifier `py2texdummyvar0`. -/
def collisionTree : Node :=
  .call (.name "py2texdummyvar0") [collisionArg]

/-- Modelled from the spec: the external parser on the input
`py2texdummyvar0(x+y)` — original substrings of its nodes. -/
def collisionAtok : Asttokens :=
  ⟨fun n =>
    match n with
    | .binOp .add (.name "x") (.name "y") => "x+y"
    | .name id => id
    | _ => ""⟩

/-- Modelled from the spec: the external evaluator on the collision input —
`sympify("x+y")` is a structural expression, and the evaluator prints the
assembled dummified call text unchanged. -/
def collisionSympy : SympyOracle :=
  ⟨fun _ => false, fun _ => true, fun s => s, fun s => s⟩

/-- An 11-argument list in which only the arguments at positions 1 and 10 are
expression-typed (named `e`); the generated placeholders are then
`py2texdummyvar1` and `py2texdummyvar10`. -/
def elevenArgs : List Node :=
  [.name "t0", .name "e", .name "t2", .name "t3", .name "t4", .name "t5",
   .name "t6", .name "t7", .name "t8", .name "t9", .name "e"]

/-- Modelled from the spec: the external parser on the 11-argument call input
— each argument node's original substring is its identifier. -/
def elevenAtok : Asttokens :=
  ⟨fun n =>
    match n with
    | .name id => id
    | _ => ""⟩

/-- Modelled from the spec: an external evaluator classifying exactly the
arguments written `e` as structural expressions. -/
def elevenSympy : SympyOracle :=
  ⟨fun _ => false, fun s => s = "e", fun s => s, fun s => s⟩

/-! ### Generic helper lemmas -/

theorem wrap_ne (s : String) : wrap s ≠ s := by
  intro h
  have h2 := congrArg String.length h
  rw [wrap, String.length_append, String.length_append] at h2
  have e1 : ("\\left(" : String).length = 6 := rfl
  have e2 : ("\\right)" : String).length = 7 := rfl
  omega

theorem replaceAux_eq_self (pat repl : List Char) :
    ∀ (s : List Char), hasSubstr pat s = false → ∀ f, replaceAux pat repl f s = s := by
  intro s
  induction s with
  | nil => intro _ f; cases f <;> rfl
  | cons c cs ih =>
    intro h f
    rw [hasSubstr, Bool.or_eq_false_iff] at h
    cases f with
    | zero => rfl
    | succ f =>
      rw [replaceAux, if_neg, ih h.2 f]
      intro hc
      rw [h.1] at hc
      exact Bool.false_ne_true (congrArg (fun b => b) hc.2)

theorem replaceStr_eq_self (s pat repl : String) (h : occursIn pat s = false) :
    replaceStr s pat repl = s := by
  rw [replaceStr, replaceAux_eq_self pat.toList repl.toList s.toList h]
  rfl

theorem chVal_digitCh (n : Nat) (h : n < 10) : chVal (digitCh n) = n := by
  interval_cases n <;> rfl

theorem decVal_append (l : List Char) (c : Char) :
    decVal (l ++ [c]) = 10 * decVal l + chVal c := by
  simp [decVal, List.foldl_append]

theorem decVal_toDecAux : ∀ (f n : Nat), n < f → decVal (toDecAux f n) = n := by
  intro f
  induction f with
  | zero => intro n h; omega
  | succ f ih =>
    intro n h
    rw [toDecAux]
    by_cases h10 : n < 10
    · rw [if_pos h10]
      calc decVal [digitCh n] = chVal (digitCh n) := by simp [decVal]
        _ = n := chVal_digitCh n h10
    · rw [if_neg h10, decVal_append]
      have hlt : n / 10 < n := Nat.div_lt_self (by omega) (by omega)
      rw [ih (n / 10) (by omega), chVal_digitCh (n % 10) (Nat.mod_lt _ (by omega))]
      omega

theorem natStr_inj (a b : Nat) (h : natStr a = natStr b) : a = b := by
  have h2 : toDecAux (a + 1) a = toDecAux (b + 1) b := congrArg String.data h
  have h3 := congrArg decVal h2
  rwa [decVal_toDecAux _ _ (Nat.lt_succ_self a), decVal_toDecAux _ _ (Nat.lt_succ_self b)] at h3

theorem dummyName_inj (i j : Nat) (h : dummyName i = dummyName j) : i = j := by
  apply natStr_inj
  have h2 := congrArg String.data h
  rw [dummyName, dummyName, String.data_append, String.data_append] at h2
  exact congrArg List.asString (List.append_cancel_left h2)

theorem pairwise_of_nodup_mem {α : Type} (P : α → α → Prop) (D : List α) :
    ∀ (l : List α), l.Nodup → (∀ x ∈ l, x ∈ D) →
      (∀ a ∈ D, ∀ b ∈ D, a ≠ b → P a b) → l.Pairwise P := by
  intro l
  induction l with
  | nil => intro _ _ _; exact List.Pairwise.nil
  | cons x xs ih =>
    intro hl hmem hP
    rw [List.nodup_cons] at hl
    refine List.Pairwise.cons ?_ (ih hl.2 (fun y hy => hmem y (List.mem_cons_of_mem _ hy)) hP)
    intro y hy
    exact hP x (hmem x (List.mem_cons_self _ _)) y (hmem y (List.mem_cons_of_mem _ hy))
      (fun he => hl.1 (he ▸ hy))

theorem visitDummify_spec (atok : Asttokens) (sym : SympyOracle) :
    ∀ (args : List Node) (k : Nat) (ds : List String) (rs : List (String × String)),
      visitDummify atok sym args k = some (ds, rs) →
      (∀ x ∈ rs.map Prod.fst, ∃ i, k ≤ i ∧ i < k + args.length ∧ x = dummyName i) ∧
      (rs.map Prod.fst).Nodup := by
  intro args
  induction args with
  | nil =>
    intro k ds rs h
    rw [visitDummify] at h
    cases h
    simp
  | cons a rest ih =>
    intro k ds rs h
    by_cases he : sym.is_Expr (atok.get_text a)
    · cases hva : visit atok sym a with
      | none =>
        cases hvd : visitDummify atok sym rest (k + 1) with
        | none => rw [visitDummify, if_pos he, hva, hvd] at h; cases h
        | some p =>
          obtain ⟨ds2, rs2⟩ := p
          rw [visitDummify, if_pos he, hva, hvd] at h
          cases h
      | some la =>
        cases hvd : visitDummify atok sym rest (k + 1) with
        | none => rw [visitDummify, if_pos he, hva, hvd] at h; cases h
        | some p =>
          obtain ⟨ds2, rs2⟩ := p
          rw [visitDummify, if_pos he, hva, hvd] at h
          cases h
          obtain ⟨hchar, hdup⟩ := ih (k + 1) ds2 rs2 hvd
          constructor
          · intro x hx
            rw [List.map_cons, List.mem_cons] at hx
            rcases hx with rfl | hx
            · exact ⟨k, le_refl k, by simp only [List.length_cons]; omega, rfl⟩
            · obtain ⟨i, h1, h2, h3⟩ := hchar x hx
              exact ⟨i, by omega, by simp only [List.length_cons] at h2 ⊢; omega, h3⟩
          · rw [List.map_cons]
            refine List.Pairwise.cons ?_ hdup
            intro y hy hxy
            obtain ⟨i, h1, _, h3⟩ := hchar y hy
            subst h3
            have := dummyName_inj k i hxy
            omega
    · cases hvd : visitDummify atok sym rest (k + 1) with
      | none => rw [visitDummify, if_neg he, hvd] at h; cases h
      | some p =>
        obtain ⟨ds2, rs2⟩ := p
        rw [visitDummify, if_neg he, hvd] at h
        cases h
        obtain ⟨hchar, hdup⟩ := ih (k + 1) ds2 rs hvd
        refine ⟨?_, hdup⟩
        intro x hx
        obtain ⟨i, h1, h2, h3⟩ := hchar x hx
        exact ⟨i, by omega, by simp only [List.length_cons] at h2 ⊢; omega, h3⟩

/-! ### Claim-specific helper lemmas -/

theorem groupLeftB_eq_true_iff (op : BinOp) (l : Node) :
    groupLeftB op l = true ↔ precBinOp op > prec l := by
  simp [groupLeftB]

theorem groupRightB_eq_true_iff (op : BinOp) (r : Node) :
    groupRightB op r = true ↔
      (precBinOp op > prec r ∨ (op = BinOp.sub ∧ precBinOp op = prec r)) := by
  simp [groupRightB, Bool.or_eq_true, Bool.and_eq_true, decide_eq_true_eq, beq_iff_eq]

/-! ### Claims -/

/-- C1: in `visit_BinOp`, the left child rendering is wrapped in explicit
grouping iff `precedence(op) > precedence(left)`, and the right child
rendering iff `precedence(op) > precedence(right)` or the operator is `Sub`
with `precedence(right) = precedence(op)`; in particular the tree of the
input `3-(1+2)/5` translates to `3-\frac{1+2}{5}`, which differs from the
rendering `\frac{3-1+2}{5}` of `(3-1+2)/5`. -/
theorem c1_binop_grouping :
    (∀ (atok : Asttokens) (sym : SympyOracle) (op : BinOp) (l r : Node),
      ((if groupLeftB op l then wrap (pystr (visit atok sym l)) else pystr (visit atok sym l)) =
          wrap (pystr (visit atok sym l)) ↔ precBinOp op > prec l) ∧
      ((if groupRightB op r then wrap (pystr (visit atok sym r)) else pystr (visit atok sym r)) =
          wrap (pystr (visit atok sym r)) ↔
            (precBinOp op > prec r ∨ (op = BinOp.sub ∧ precBinOp op = prec r)))) ∧
    (∀ (atok : Asttokens) (sym : SympyOracle),
      py2tex atok sym tree351 = some "3-\\frac\x7b1+2\x7d\x7b5\x7d" ∧
      py2tex atok sym tree351flat = some "\\frac\x7b3-1+2\x7d\x7b5\x7d" ∧
      py2tex atok sym tree351 ≠ py2tex atok sym tree351flat) := by
  constructor
  · intro atok sym op l r
    constructor
    · by_cases hg : groupLeftB op l = true
      · rw [if_pos hg]
        exact iff_of_true rfl ((groupLeftB_eq_true_iff op l).mp hg)
      · rw [if_neg hg]
        exact iff_of_false (fun h => wrap_ne _ h.symm)
          (fun hc => hg ((groupLeftB_eq_true_iff op l).mpr hc))
    · by_cases hg : groupRightB op r = true
      · rw [if_pos hg]
        exact iff_of_true rfl ((groupRightB_eq_true_iff op r).mp hg)
      · rw [if_neg hg]
        exact iff_of_false (fun h => wrap_ne _ h.symm)
          (fun hc => hg ((groupRightB_eq_true_iff op r).mpr hc))
  · intro atok sym
    refine ⟨rfl, rfl, ?_⟩
    rw [show py2tex atok sym tree351 = some "3-\\frac\x7b1+2\x7d\x7b5\x7d" from rfl,
        show py2tex atok sym tree351flat = some "\\frac\x7b3-1+2\x7d\x7b5\x7d" from rfl]
    decide

/-- C2 counterexample: the translation of `Sum(i+k, (i, 1, k))` is NOT the
claimed `\sum_{i=1}^{k} \left(i+k\right)`: the source format string
`r'\%s {%s=%s}^{%s} %s'` puts a space between `sum_` and the subscript
brace. -/
theorem c2_sum_space_counterexample :
    visit exampleAtok exampleSympy sumCallAdd =
      some "\\sum_ \x7bi=1\x7d^\x7bk\x7d \\left(i+k\\right)" ∧
    visit exampleAtok exampleSympy sumCallAdd ≠
      some "\\sum_\x7bi=1\x7d^\x7bk\x7d \\left(i+k\\right)" := by
  exact ⟨rfl, by decide⟩

/-- C2 (amended): translating `Sum(body, (index, lower, upper))` (resp.
`Product`) yields `\sum_ {index=lower}^{upper} body` (resp. `\prod_ ...`),
with a space after the `sum_`/`prod_` marker, the body wrapped in
`\left(...\right)` iff the evaluator classifies its source text as top-level
additive; concretely `Sum(i+k, (i, 1, k))` gives
`\sum_ {i=1}^{k} \left(i+k\right)` and `Sum(i*k, (i, 1, k))` gives
`\sum_ {i=1}^{k} i k`. -/
theorem c2_sum_product_translation :
    (∀ (atok : Asttokens) (sym : SympyOracle) (body idx lo hi : Node) (tail : List Node),
      visit atok sym (.call (.name "Sum") (body :: .tuple [idx, lo, hi] :: tail)) =
        some ("\\sum_ \x7b" ++ pystr (visit atok sym idx) ++ "=" ++
          pystr (visit atok sym lo) ++ "\x7d^\x7b" ++ pystr (visit atok sym hi) ++ "\x7d " ++
          (if sym.is_Add (atok.get_text body) then wrap (pystr (visit atok sym body))
           else pystr (visit atok sym body)))) ∧
    (∀ (atok : Asttokens) (sym : SympyOracle) (body idx lo hi : Node) (tail : List Node),
      visit atok sym (.call (.name "Product") (body :: .tuple [idx, lo, hi] :: tail)) =
        some ("\\prod_ \x7b" ++ pystr (visit atok sym idx) ++ "=" ++
          pystr (visit atok sym lo) ++ "\x7d^\x7b" ++ pystr (visit atok sym hi) ++ "\x7d " ++
          (if sym.is_Add (atok.get_text body) then wrap (pystr (visit atok sym body))
           else pystr (visit atok sym body)))) ∧
    visit exampleAtok exampleSympy sumCallAdd =
      some "\\sum_ \x7bi=1\x7d^\x7bk\x7d \\left(i+k\\right)" ∧
    visit exampleAtok exampleSympy sumCallMul = some "\\sum_ \x7bi=1\x7d^\x7bk\x7d i k" := by
  refine ⟨?_, ?_, rfl, rfl⟩
  · intro atok sym body idx lo hi tail
    rw [visit, wrap]
    simp only [visit]
    rfl
  · intro atok sym body idx lo hi tail
    rw [visit, wrap]
    simp only [visit]
    rfl

/-- C3: a call whose callee is named `fibonacci` (resp. `lucas`) translates to
`F_{args}` (resp. `L_{args}`) where `args` is the comma-joined translation of
the arguments; in particular `fibonacci(n)` gives `F_{n}` and `lucas(n)` gives
`L_{n}`. -/
theorem c3_fibonacci_lucas :
    (∀ (atok : Asttokens) (sym : SympyOracle) (args : List Node),
      visit atok sym (.call (.name "fibonacci") args) =
        (visitList atok sym args).map
          (fun ss => "F_\x7b" ++ String.intercalate ", " ss ++ "\x7d")) ∧
    (∀ (atok : Asttokens) (sym : SympyOracle) (args : List Node),
      visit atok sym (.call (.name "lucas") args) =
        (visitList atok sym args).map
          (fun ss => "L_\x7b" ++ String.intercalate ", " ss ++ "\x7d")) ∧
    (∀ (atok : Asttokens) (sym : SympyOracle),
      visit atok sym (.call (.name "fibonacci") [.name "n"]) = some "F_\x7bn\x7d") ∧
    (∀ (atok : Asttokens) (sym : SympyOracle),
      visit atok sym (.call (.name "lucas") [.name "n"]) = some "L_\x7bn\x7d") := by
  refine ⟨?_, ?_, fun _ _ => rfl, fun _ _ => rfl⟩
  · intro atok sym args
    rw [visit.eq_def]
    have hname : visit atok sym (.name "fibonacci") = some "fibonacci" := rfl
    simp only [hname, Option.some.injEq]
    norm_num
    cases visitList atok sym args with
    | none => rfl
    | some ss => rfl
  · intro atok sym args
    rw [visit.eq_def]
    have hname : visit atok sym (.name "lucas") = some "lucas" := rfl
    simp only [hname, Option.some.injEq]
    norm_num
    cases visitList atok sym args with
    | none => rfl
    | some ss => rfl

/-- C4: a `Div` binary operation translates to `\frac{left}{right}` from the
ungrouped child translations, whatever the children are; a `FloorDiv` to the
same fraction wrapped in `\left\lfloor...\right\rfloor`. -/
theorem c4_div_floordiv :
    (∀ (atok : Asttokens) (sym : SympyOracle) (l r : Node),
      visit atok sym (.binOp .div l r) =
        some ("\\frac\x7b" ++ pystr (visit atok sym l) ++ "\x7d\x7b" ++
          pystr (visit atok sym r) ++ "\x7d")) ∧
    (∀ (atok : Asttokens) (sym : SympyOracle) (l r : Node),
      visit atok sym (.binOp .floorDiv l r) =
        some ("\\left\\lfloor\\frac\x7b" ++ pystr (visit atok sym l) ++ "\x7d\x7b" ++
          pystr (visit atok sym r) ++ "\x7d\\right\\rfloor")) :=
  ⟨fun _ _ _ _ => rfl, fun _ _ _ _ => rfl⟩

/-- C5: the precedence table is total (`prec`, `precBinOp` and `precUnOp` are
total functions, the catch-alls modelling `generic_prec`) with exactly the
fixed values: Add/Sub 300, Mult/Div/FloorDiv 400, Mod 500, Pow 700, the unary
operators 800, the atom nodes (Name, Num, Call) 1000, and 0 for every
unmapped kind (bitwise, shift and `@` operators; tuple nodes); `BinOp` and
`UnaryOp` nodes delegate to their operator. -/
theorem c5_precedence_table :
    precBinOp .add = 300 ∧ precBinOp .sub = 300 ∧
    precBinOp .mult = 400 ∧ precBinOp .div = 400 ∧ precBinOp .floorDiv = 400 ∧
    precBinOp .mod = 500 ∧ precBinOp .pow = 700 ∧
    (∀ u : UnOp, precUnOp u = 800) ∧
    (∀ s : String, prec (.name s) = 1000) ∧
    (∀ v : Int, prec (.num v) = 1000) ∧
    (∀ (f : Node) (args : List Node), prec (.call f args) = 1000) ∧
    precBinOp .bitAnd = 0 ∧ precBinOp .bitOr = 0 ∧ precBinOp .bitXor = 0 ∧
    precBinOp .lshift = 0 ∧ precBinOp .rshift = 0 ∧ precBinOp .matMult = 0 ∧
    (∀ es : List Node, prec (.tuple es) = 0) ∧
    (∀ (op : BinOp) (l r : Node), prec (.binOp op l r) = precBinOp op) ∧
    (∀ (op : UnOp) (x : Node), prec (.unaryOp op x) = precUnOp op) :=
  ⟨rfl, rfl, rfl, rfl, rfl, rfl, rfl, fun _ => rfl, fun _ => rfl, fun _ => rfl,
   fun _ _ => rfl, rfl, rfl, rfl, rfl, rfl, rfl, fun _ => rfl, fun _ _ _ => rfl,
   fun _ _ => rfl⟩

/-- C6 counterexample: the post-processor is not idempotent on every string:
on `((\left(` the first pass leaves `(\left(`, which a second pass collapses
further. -/
theorem c6_cleanup_not_idempotent :
    cleanup (cleanup "((\\left(") ≠ cleanup "((\\left(" := by
  decide

/-- C6 (amended): the post-processor is idempotent on every input whose
once-processed output no longer contains either pattern `(\left(` or
`\right))` (replacements can re-create a pattern across a boundary, e.g. from
`((\left(`, so unrestricted idempotence fails). -/
theorem c6_cleanup_idempotent_on_settled (s : String)
    (h1 : occursIn "(\\left(" (cleanup s) = false)
    (h2 : occursIn "\\right))" (cleanup s) = false) :
    cleanup (cleanup s) = cleanup s := by
  show replaceStr (replaceStr (cleanup s) "(\\left(" "\\left(") "\\right))" "\\right)" = cleanup s
  rw [replaceStr_eq_self _ _ _ h1, replaceStr_eq_self _ _ _ h2]

/-- C6 witness: a settled concrete output on which the amended idempotence
theorem applies. -/
theorem c6_cleanup_idempotent_witness :
    occursIn "(\\left(" (cleanup "3-\\frac\x7b1+2\x7d\x7b5\x7d") = false ∧
    occursIn "\\right))" (cleanup "3-\\frac\x7b1+2\x7d\x7b5\x7d") = false ∧
    cleanup (cleanup "3-\\frac\x7b1+2\x7d\x7b5\x7d") = cleanup "3-\\frac\x7b1+2\x7d\x7b5\x7d" :=
  ⟨by decide, by decide,
   c6_cleanup_idempotent_on_settled "3-\\frac\x7b1+2\x7d\x7b5\x7d" (by decide) (by decide)⟩

/-- C7 counterexample: the placeholder namespace is NOT reserved —
`py2texdummyvar0` is an ordinary valid identifier.  On the input
`py2texdummyvar0(x+y)` the generated placeholder coincides with the callee
identifier of the input, and the final substitution step rewrites the callee
text as well, yielding `x+y(x+y)`. -/
theorem c7_placeholder_collision :
    placeholderNames collisionAtok collisionSympy [collisionArg] 0 = ["py2texdummyvar0"] ∧
    "py2texdummyvar0" ∈ namesIn collisionTree ∧
    visit collisionAtok collisionSympy collisionTree = some "x+y(x+y)" :=
  ⟨rfl, by decide, rfl⟩

/-- C7 (amended): placeholders are `py2texdummyvar` followed by the running
counter; within one call-translation invocation the recorded placeholder
names are pairwise distinct (the counter strictly increases), but the prefix
is itself a valid identifier, so coincidence with an identifier of the input
is not structurally prevented. -/
theorem c7_placeholder_distinct
    (atok : Asttokens) (sym : SympyOracle) (args : List Node) (k : Nat)
    (ds : List String) (rs : List (String × String))
    (h : visitDummify atok sym args k = some (ds, rs)) :
    (rs.map Prod.fst).Nodup :=
  (visitDummify_spec atok sym args k ds rs h).2

/-- C7 witness: the distinctness theorem applied to the 11-argument example
call. -/
theorem c7_placeholder_distinct_witness :
    (([("py2texdummyvar1", "e"), ("py2texdummyvar10", "e")] :
        List (String × String)).map Prod.fst).Nodup :=
  c7_placeholder_distinct elevenAtok elevenSympy elevenArgs 0
    ["t0", "py2texdummyvar1", "t2", "t3", "t4", "t5", "t6", "t7", "t8", "t9",
     "py2texdummyvar10"]
    [("py2texdummyvar1", "e"), ("py2texdummyvar10", "e")] rfl

/-- C8 counterexample: translating a binary operation with an unsupported
operator (`@`, i.e. `ast.MatMult`) does not fail loudly: it silently
interpolates the missing handler result as the text `None`, producing
`xNoney` for `x @ y`, with no `unsupported` signal anywhere. -/
theorem c8_unsupported_silent_counterexample :
    visit defaultAtok defaultSympy (.binOp .matMult (.name "x") (.name "y")) =
      some "xNoney" ∧
    occursIn "unsupported" "xNoney" = false :=
  ⟨rfl, by decide⟩

/-- C8 (amended): an operator kind with no translation rule is rendered
silently: `visit_BinOp` interpolates the `None` returned by `generic_visit`
for the operator symbol (so `x @ y` becomes `xNoney`), and a node variant
with no handler (a tuple) translates to `None` itself; no error and no
explicit `unsupported` signal is produced. -/
theorem c8_unsupported_silent :
    (∀ (atok : Asttokens) (sym : SympyOracle) (l r : Node),
      visit atok sym (.binOp .matMult l r) =
        some (pystr (visit atok sym l) ++ "None" ++ pystr (visit atok sym r))) ∧
    (∀ (atok : Asttokens) (sym : SympyOracle) (es : List Node),
      visit atok sym (.tuple es) = none) :=
  ⟨fun _ _ _ _ => rfl, fun _ _ _ => rfl⟩

/-- C9: an `ast.Name` node translates to its identifier unchanged, and an
`ast.Num` node to the decimal text of the number it carries (`str(n.n)`),
unchanged. -/
theorem c9_atoms_verbatim :
    (∀ (atok : Asttokens) (sym : SympyOracle) (s : String),
      visit atok sym (.name s) = some s) ∧
    (∀ (atok : Asttokens) (sym : SympyOracle) (v : Int),
      visit atok sym (.num v) = some (intStr v)) :=
  ⟨fun _ _ _ => rfl, fun _ _ _ => rfl⟩

/-- C10 counterexample: the "at most 10 expression-typed arguments"
biconditional fails: the 11-argument call `g(t0,e,t2,...,t9,e)` has exactly 2
expression-typed arguments, yet its placeholders are `py2texdummyvar1` and
`py2texdummyvar10`, the first a substring of the second — and the final
substitution indeed corrupts the output: the second `e` argument renders as
`e0`. -/
theorem c10_substring_precondition_counterexample :
    countExprArgs elevenAtok elevenSympy elevenArgs = 2 ∧
    placeholderNames elevenAtok elevenSympy elevenArgs 0 =
      ["py2texdummyvar1", "py2texdummyvar10"] ∧
    occursIn "py2texdummyvar1" "py2texdummyvar10" = true ∧
    visit elevenAtok elevenSympy (.call (.name "g") elevenArgs) =
      some "g(t0,e,t2,t3,t4,t5,t6,t7,t8,t9,e0)" :=
  ⟨rfl, rfl, by decide, rfl⟩

/-- C10 (amended): the final substitution iterates the recorded placeholders
in order with plain substring replacement; the recorded placeholder names are
pairwise substring-free whenever the call has at most 10 arguments in total
(all allocated counter values are then single digits), but not in general:
with an 11th argument the name ending in `1` can be a prefix of the name
ending in `10` even when only 2 arguments are expression-typed. -/
theorem c10_placeholder_substring_free_of_small_call
    (atok : Asttokens) (sym : SympyOracle) (args : List Node)
    (ds : List String) (rs : List (String × String))
    (hlen : args.length ≤ 10)
    (h : visitDummify atok sym args 0 = some (ds, rs)) :
    (rs.map Prod.fst).Pairwise
      (fun a b => occursIn a b = false ∧ occursIn b a = false) := by
  obtain ⟨hchar, hdup⟩ := visitDummify_spec atok sym args 0 ds rs h
  apply pairwise_of_nodup_mem _ ((List.range 10).map dummyName) _ hdup
  · intro x hx
    obtain ⟨i, h1, h2, h3⟩ := hchar x hx
    subst h3
    exact List.mem_map_of_mem _ (List.mem_range.mpr (by omega))
  · decide

/-- C10 witness: the substring-freedom theorem applied to a 2-argument call
with one expression-typed argument. -/
theorem c10_substring_free_witness :
    (([("py2texdummyvar0", "e")] : List (String × String)).map Prod.fst).Pairwise
      (fun a b => occursIn a b = false ∧ occursIn b a = false) :=
  c10_placeholder_substring_free_of_small_call elevenAtok elevenSympy
    [.name "e", .name "t0"] ["py2texdummyvar0", "t0"] [("py2texdummyvar0", "e")]
    (by decide) rfl
